import Mathlib

/-!
Verification of `fontname.py` (Asvel/fontname, version 0.2.0).

Shallow embedding conventions:
* A Python byte string is `List Nat` (each element a byte value).
* A Python unicode string is `List Nat` (each element a code point);
  the empty string is `[]`.
* The Python codec machinery (`bytes.decode(encoding)`) is external
  library code; it is modelled as a parameter of type `Codecs`:
  a codec name together with a byte string yields `some text`
  (successful decode) or `none` (the decode raises `UnicodeError`).
  Concrete codecs needed by closed statements (`ascii`, `utf_16_be`,
  `latin_1`, `mac_roman`) are implemented and bundled in `pyDecodeImpl`.
* `try`/`except UnicodeError` control flow becomes matching on `Option`.
* The freetype face enumeration (external library) is abstracted:
  a face is the data the code reads from it, a font file is its list
  of faces.
-/

set_option linter.unusedVariables false

/-- A byte string: list of byte values. -/
abbrev Bytes := List Nat

/-- A decoded text: list of unicode code points. -/
abbrev Text := List Nat

/-- The codec machinery: codec name → raw bytes → decoded text, or
`none` when the decode raises `UnicodeError`. -/
abbrev Codecs := String → Bytes → Option Text

/-- One SFNT name record, as exposed by freetype
(`face.get_sfnt_name(i)`). -/
structure SfntName where
  platform_id : Nat
  encoding_id : Nat
  language_id : Nat
  name_id : Nat
  string : Bytes
deriving DecidableEq

/-- A name record after the decode cascade has run: the code stores
`name.encoding` and `name.unicode` on the record (fontname.py lines
162-163). -/
structure DecodedName where
  language_id : Nat
  platform_id : Nat
  encoding_id : Nat
  unicode : Text
  encoding : Option String
deriving DecidableEq

/-- The `sfnt_name_encoding` table of fontname.py (lines 17-85):
preferred encoding of an SFNT name, indexed by
`[platform_id][encoding_id]`; `none` is a `KeyError`. -/
def sfnt_name_encoding (platform_id encoding_id : Nat) : Option String :=
  match platform_id, encoding_id with
  | 0, 0 => some "utf_16_be"
  | 0, 1 => some "utf_16_be"
  | 0, 2 => some "utf_16_be"
  | 0, 3 => some "utf_16_be"
  | 0, 4 => some "utf_16_be"
  | 0, 5 => some "utf_16_be"
  | 1, 0 => some "mac_roman"
  | 1, 1 => some "shift_jis"
  | 1, 2 => some "big5"
  | 1, 3 => some "euc_kr"
  | 1, 4 => some "iso8859_6"
  | 1, 5 => some "iso8859_8"
  | 1, 6 => some "mac_greek"
  | 1, 7 => some "iso8859_5"
  | 1, 8 => some "ascii"
  | 1, 9 => some "ascii"
  | 1, 10 => some "ascii"
  | 1, 11 => some "ascii"
  | 1, 12 => some "ascii"
  | 1, 13 => some "ascii"
  | 1, 14 => some "ascii"
  | 1, 15 => some "ascii"
  | 1, 16 => some "ascii"
  | 1, 17 => some "ascii"
  | 1, 18 => some "ascii"
  | 1, 19 => some "ascii"
  | 1, 20 => some "ascii"
  | 1, 21 => some "cp874"
  | 1, 22 => some "ascii"
  | 1, 23 => some "ascii"
  | 1, 24 => some "ascii"
  | 1, 25 => some "euc_cn"
  | 1, 26 => some "ascii"
  | 1, 27 => some "ascii"
  | 1, 28 => some "ascii"
  | 1, 29 => some "ascii"
  | 1, 30 => some "cp1258"
  | 1, 31 => some "ascii"
  | 1, 32 => some "ascii"
  | 2, 0 => some "ascii"
  | 2, 1 => some "utf_16_be"
  | 2, 2 => some "latin_1"
  | 3, 0 => some "utf_16_be"
  | 3, 1 => some "utf_16_be"
  | 3, 2 => some "shift_jis"
  | 3, 3 => some "gb2312"
  | 3, 4 => some "big5"
  | 3, 5 => some "cp949"
  | 3, 6 => some "johab"
  | 3, 10 => some "utf_32_be"
  | 4, 0 => some "ascii"
  | 7, 0 => some "utf_16_be"
  | 7, 1 => some "utf_16_be"
  | 7, 2 => some "utf_16_be"
  | 7, 3 => some "utf_16_be"
  | _, _ => none

/-- The guarded table lookup of fontname.py lines 135-138:
`sfnt_name_encoding[platform_id][encoding_id]`, falling back to
`utf_16_be` on `KeyError`. -/
def sfntEncodingLookup (platform_id encoding_id : Nat) : String :=
  (sfnt_name_encoding platform_id encoding_id).getD "utf_16_be"

/-- The `sfnt_name_priority` table of fontname.py (lines 89-109):
`(language_id, platform_id, encoding_id)` triples. -/
def sfnt_name_priority : List (Nat × Nat × Nat) :=
  [ (2052, 3, 3), (2052, 3, 1), (33, 1, 25),
    (1028, 3, 4), (1028, 3, 1), (19, 1, 2),
    (1041, 3, 2), (1041, 3, 1), (11, 1, 1),
    (1042, 3, 5), (1042, 3, 1), (2066, 3, 6), (2066, 3, 1), (23, 1, 3),
    (1033, 3, 1) ]

/-- Python `s.strip("\x00")`: remove leading and trailing NUL
code points. -/
def stripNul (s : Text) : Text :=
  ((s.dropWhile (· = 0)).reverse.dropWhile (· = 0)).reverse

/-- The per-record decode cascade of fontname.py lines 134-161,
returning the pair `(s, encoding)` the code stores at lines 162-163
(before the final `strip`).

* First attempt: decode with the table encoding; reject a result with
  a NUL embedded in the stripped text (`raise UnicodeError()`).
* Padding repair: `re.match(br'^\x00[\x00-\xFF]*$', raw)` holds iff
  `raw` is nonempty and its first byte is NUL (the byte class accepts
  every byte, so the regex only constrains the first byte); then all
  NUL bytes are removed (`raw.replace(b'\x00', b'')`) and the same
  encoding is retried.
* Then strict `utf_16_be`, then strict `ascii`.
* Finally `(\"\", None)` when everything failed. -/
def decodeRecord (codecs : Codecs) (platform_id encoding_id : Nat)
    (raw : Bytes) : Text × Option String :=
  let encoding := sfntEncodingLookup platform_id encoding_id
  let step2 : Text × Option String :=
    match (if raw.head? = some 0
           then codecs encoding (raw.filter (· ≠ 0))
           else none) with
    | some s => (s, some encoding)
    | none =>
      match codecs "utf_16_be" raw with
      | some s => (s, some "utf_16_be")
      | none =>
        match codecs "ascii" raw with
        | some s => (s, some "ascii")
        | none => ([], none)
  match codecs encoding raw with
  | some s => if 0 ∈ stripNul s then step2 else (s, some encoding)
  | none => step2

/-- Decoding one record and storing the results on it, as fontname.py
lines 129-163 do for each `name` (`name.encoding = encoding`,
`name.unicode = s.strip("\x00")`). -/
def decodeName (codecs : Codecs) (n : SfntName) : DecodedName :=
  let r := decodeRecord codecs n.platform_id n.encoding_id n.string
  { language_id := n.language_id
    platform_id := n.platform_id
    encoding_id := n.encoding_id
    unicode := stripNul r.1
    encoding := r.2 }

/-- The records the cascade runs on: those with `name_id == 4`
(FULL_NAME), each decoded (fontname.py lines 121, 129-163). -/
def decodedNames (codecs : Codecs) (records : List SfntName) :
    List DecodedName :=
  ((records.filter (fun n => n.name_id = 4)).map (decodeName codecs))

/-- The dictionary comprehension of fontname.py line 171 followed by
`namedict.get(meta)`: maps a `(language_id, platform_id, encoding_id)`
triple to the decoded string of the matching record; later records
overwrite earlier ones (Python dict semantics), hence the lookup over
the reversed list. -/
def nameDictGet (names : List DecodedName) (meta : Nat × Nat × Nat) :
    Option Text :=
  (names.reverse.find?
      (fun n => (n.language_id, n.platform_id, n.encoding_id) = meta)).map
    (fun n => n.unicode)

/-- The priority loop of fontname.py lines 172-178: the first priority
triple whose dictionary entry is truthy (present and non-empty) wins;
the `for`-`else` falls back to `names[-1].unicode`. -/
def choosePreferred (names : List DecodedName) :
    List (Nat × Nat × Nat) → Text
  | [] => ((names.getLast?).map (fun n => n.unicode)).getD []
  | meta :: rest =>
    match nameDictGet names meta with
    | some s => if s = [] then choosePreferred names rest else s
    | none => choosePreferred names rest

/-- `guess_sfnt_name` (fontname.py lines 112-183). A `priority` of
`none` models Python `None`/`False` (return all decoded records);
`some prio` models a priority list. When no FULL_NAME record exists
the function returns `""` (here `Sum.inl []`). -/
def guess_sfnt_name (codecs : Codecs) (records : List SfntName)
    (priority : Option (List (Nat × Nat × Nat))) :
    Text ⊕ List DecodedName :=
  if (records.filter (fun n => n.name_id = 4)) = [] then Sum.inl []
  else
    match priority with
    | some prio => Sum.inl (choosePreferred (decodedNames codecs records) prio)
    | none => Sum.inr (decodedNames codecs records)

/-- The data `guess_font_name` reads from one freetype face. -/
structure Face where
  sfnt_names : List SfntName
  family_name : Bytes
  postscript_name : Bytes
deriving DecidableEq

/-- Strict US-ASCII decode: every byte below 0x80 maps to itself. -/
def asciiDecode (raw : Bytes) : Option Text :=
  if raw.all (· < 128) then some raw else none

/-- The per-face body of the loop in `guess_font_name` (fontname.py
lines 202-215): try the SFNT name, then `family_name.decode('ascii')`,
then `postscript_name.decode('ascii')`, else the empty name. -/
def faceName (codecs : Codecs) (face : Face) : Text :=
  let name : Text :=
    if face.sfnt_names.length > 0 then
      match guess_sfnt_name codecs face.sfnt_names (some sfnt_name_priority) with
      | Sum.inl s => s
      | Sum.inr _ => []
    else []
  if name ≠ [] then name
  else
    match asciiDecode face.family_name with
    | some s => s
    | none =>
      match asciiDecode face.postscript_name with
      | some s => s
      | none => []

/-- The accumulation step of fontname.py lines 216-219: a face's name
is appended only when truthy and not already collected. -/
def addFaceName (names : List Text) (name : Text) : List Text :=
  if name ≠ [] ∧ name ∉ names then names ++ [name] else names

/-- The `names` list built by the face loop of `guess_font_name`
(fontname.py lines 200-221). -/
def collectFaceNames (codecs : Codecs) (faces : List Face) : List Text :=
  faces.foldl (fun acc f => addFaceName acc (faceName codecs f)) []

/-- `guess_font_name` (fontname.py lines 186-226), with the freetype
face enumeration abstracted into the list of faces. A `join` of `none`
models Python `None`/`False` (return the list); `some sep` models a
separator string (`str.join`). -/
def guess_font_name (codecs : Codecs) (faces : List Face)
    (join : Option Text) : Text ⊕ List Text :=
  let names := collectFaceNames codecs faces
  match join with
  | some sep => Sum.inl (List.intercalate sep names)
  | none => Sum.inr names

/-- The bytes at odd indices of a byte string (used to state the
interleaved-padding clause of the spec). -/
def oddBytes : Bytes → Bytes
  | [] => []
  | [_] => []
  | _ :: b :: rest => b :: oddBytes rest

/-- First-occurrence deduplication: keeps the first occurrence of each
element, in order of first occurrence (used to state the
deduplication behaviour of the face-name list). -/
def dedupFirst : List Text → List Text
  | [] => []
  | a :: l => a :: dedupFirst (l.filter (· ≠ a))
termination_by l => l.length
decreasing_by
  simp only [List.length_cons]
  exact Nat.lt_succ_of_le (List.length_filter_le _ _)

/-- Strict Latin-1 decode: every byte maps to itself. -/
def latin1Decode (raw : Bytes) : Option Text :=
  if raw.all (· < 256) then some raw else none

/-- The Mac Roman decode table for bytes 0x80-0xFF (the codec maps
bytes below 0x80 to themselves); values are the standard Mac OS Roman
code points. -/
def macRomanHigh : List Nat :=
  [ 196, 197, 199, 201, 209, 214, 220, 225, 224, 226, 228, 227, 229,
    231, 233, 232, 234, 235, 237, 236, 238, 239, 241, 243, 242, 244,
    246, 245, 250, 249, 251, 252, 8224, 176, 162, 163, 167, 8226, 182,
    223, 174, 169, 8482, 180, 168, 8800, 198, 216, 8734, 177, 8804,
    8805, 165, 181, 8706, 8721, 8719, 960, 8747, 170, 186, 937, 230,
    248, 191, 161, 172, 8730, 402, 8776, 8710, 171, 187, 8230, 160,
    192, 195, 213, 338, 339, 8211, 8212, 8220, 8221, 8216, 8217, 247,
    9674, 255, 376, 8260, 8364, 8249, 8250, 64257, 64258, 8225, 183,
    8218, 8222, 8240, 194, 202, 193, 203, 200, 205, 206, 207, 204,
    211, 212, 63743, 210, 218, 219, 217, 305, 710, 732, 175, 728,
    729, 730, 184, 733, 731, 711 ]

/-- Mac Roman decode: total on bytes (the codec accepts every byte
value). -/
def macRomanDecode (raw : Bytes) : Option Text :=
  if raw.all (· < 256) then
    some (raw.map (fun b => if b < 128 then b else macRomanHigh.getD (b - 128) 0))
  else none

/-- Strict big-endian UTF-16 decode: pairs of bytes form 16-bit units;
a high surrogate must be followed by a low surrogate (combined into a
supplementary code point); a lone surrogate or an odd byte count
raises. -/
def utf16beDecode : Bytes → Option Text
  | [] => some []
  | [_] => none
  | b1 :: b2 :: rest =>
    let u := b1 * 256 + b2
    if 0xD800 ≤ u ∧ u ≤ 0xDBFF then
      match rest with
      | b3 :: b4 :: rest2 =>
        let v := b3 * 256 + b4
        if 0xDC00 ≤ v ∧ v ≤ 0xDFFF then
          (utf16beDecode rest2).map
            (fun t => ((u - 0xD800) * 0x400 + (v - 0xDC00) + 0x10000) :: t)
        else none
      | _ => none
    else if 0xDC00 ≤ u ∧ u ≤ 0xDFFF then none
    else (utf16beDecode rest).map (fun t => u :: t)

/-- Concrete codec machinery for the codecs exercised by the closed
statements below; the remaining table codecs (CJK multi-byte code
pages) are not needed by any concrete input in this file and are left
failing. -/
def pyDecodeImpl : Codecs := fun encoding raw =>
  match encoding with
  | "ascii" => asciiDecode raw
  | "utf_16_be" => utf16beDecode raw
  | "latin_1" => latin1Decode raw
  | "mac_roman" => macRomanDecode raw
  | _ => none

/-- Modelled from the spec: the premise of the fidelity property,
"`raw` was produced by encoding a string `S` under its declared
encoding" — US-ASCII encoding of a code-point string (the repository
never encodes, so this definition follows the spec's words). -/
def asciiEncode (s : Text) : Option Bytes :=
  if s.all (· < 128) then some s else none

/-! ### Helper lemmas about `stripNul` -/

theorem dropWhile_eq_self_of_head (p : Nat → Bool) (l : List Nat)
    (h : ∀ a, l.head? = some a → p a = false) : l.dropWhile p = l := by
  cases l with
  | nil => rfl
  | cons a t => rw [List.dropWhile_cons, h a rfl]; simp

theorem head_dropWhile_false (p : Nat → Bool) :
    ∀ (l : List Nat) (a : Nat), (l.dropWhile p).head? = some a → p a = false := by
  intro l
  induction l with
  | nil => intro a h; simp [List.dropWhile] at h
  | cons b t ih =>
    intro a h
    rw [List.dropWhile_cons] at h
    by_cases hb : p b = true
    · rw [if_pos hb] at h; exact ih a h
    · rw [if_neg hb] at h
      have hba : b = a := by simpa using h
      exact hba ▸ Bool.eq_false_iff.mpr hb

theorem getLast_dropWhile_eq (p : Nat → Bool) :
    ∀ (l : List Nat), l.dropWhile p ≠ [] → (l.dropWhile p).getLast? = l.getLast? := by
  intro l
  induction l with
  | nil => intro h; simp [List.dropWhile] at h
  | cons b t ih =>
    intro h
    rw [List.dropWhile_cons] at h ⊢
    by_cases hb : p b = true
    · rw [if_pos hb] at h ⊢
      rw [ih h]
      cases t with
      | nil => simp [List.dropWhile] at h
      | cons c t2 => rw [List.getLast?_cons_cons]
    · rw [if_neg hb]

theorem stripNul_head_ne_zero (l : Text) (a : Nat)
    (h : (stripNul l).head? = some a) : a ≠ 0 := by
  unfold stripNul at h
  rw [List.head?_reverse] at h
  have hne : (l.dropWhile (· = 0)).reverse.dropWhile (· = 0) ≠ [] := by
    intro e; rw [e] at h; simp at h
  rw [getLast_dropWhile_eq _ _ hne, List.getLast?_reverse] at h
  exact of_decide_eq_false (head_dropWhile_false _ l a h)

theorem stripNul_last_ne_zero (l : Text) (a : Nat)
    (h : (stripNul l).getLast? = some a) : a ≠ 0 := by
  unfold stripNul at h
  rw [List.getLast?_reverse] at h
  exact of_decide_eq_false (head_dropWhile_false _ _ a h)

theorem stripNul_eq_self (l : Text)
    (h1 : ∀ a, l.head? = some a → a ≠ 0)
    (h2 : ∀ a, l.getLast? = some a → a ≠ 0) : stripNul l = l := by
  unfold stripNul
  rw [dropWhile_eq_self_of_head _ _ (fun a ha => decide_eq_false (h1 a ha))]
  rw [dropWhile_eq_self_of_head _ _ ?_, List.reverse_reverse]
  intro a ha
  rw [List.head?_reverse] at ha
  exact decide_eq_false (h2 a ha)

theorem stripNul_idem (l : Text) : stripNul (stripNul l) = stripNul l :=
  stripNul_eq_self _ (stripNul_head_ne_zero l) (stripNul_last_ne_zero l)

theorem stripNul_of_not_mem (s : Text) (h : 0 ∉ s) : stripNul s = s := by
  refine stripNul_eq_self s (fun a ha he => h ?_) (fun a ha he => h ?_)
  · exact he ▸ List.mem_of_mem_head? (by rw [ha]; rfl)
  · rw [← he]
    have : s.reverse.head? = some a := by rw [List.head?_reverse]; exact ha
    exact List.mem_reverse.mp (List.mem_of_mem_head? (by rw [this]; rfl))

/-! ### Helper lemmas about the priority chooser -/

theorem choosePreferred_skip_none (names : List DecodedName)
    (meta : Nat × Nat × Nat) (rest : List (Nat × Nat × Nat))
    (h : nameDictGet names meta = none ∨ nameDictGet names meta = some []) :
    choosePreferred names (meta :: rest) = choosePreferred names rest := by
  rcases h with h | h <;> simp [choosePreferred, h]

theorem choosePreferred_hit (names : List DecodedName)
    (meta : Nat × Nat × Nat) (rest : List (Nat × Nat × Nat)) (s : Text)
    (h : nameDictGet names meta = some s) (hs : s ≠ []) :
    choosePreferred names (meta :: rest) = s := by
  simp [choosePreferred, h, hs]

theorem choosePreferred_append (names : List DecodedName) (s : Text)
    (pre : List (Nat × Nat × Nat)) (m : Nat × Nat × Nat)
    (post : List (Nat × Nat × Nat))
    (hpre : ∀ x ∈ pre, nameDictGet names x = none ∨ nameDictGet names x = some [])
    (hm : nameDictGet names m = some s) (hs : s ≠ []) :
    choosePreferred names (pre ++ m :: post) = s := by
  induction pre with
  | nil => exact choosePreferred_hit names m post s hm hs
  | cons x xs ih =>
    rw [List.cons_append,
      choosePreferred_skip_none names x _ (hpre x (List.mem_cons_self x xs))]
    exact ih (fun y hy => hpre y (List.mem_cons_of_mem x hy))

theorem choosePreferred_cases (names : List DecodedName)
    (prio : List (Nat × Nat × Nat)) :
    choosePreferred names prio = [] ∨
      ∃ n ∈ names, choosePreferred names prio = n.unicode := by
  induction prio with
  | nil =>
    cases hl : names.getLast? with
    | none => left; simp [choosePreferred, hl]
    | some n =>
      right
      refine ⟨n, ?_, by simp [choosePreferred, hl]⟩
      have : names.reverse.head? = some n := by rw [List.head?_reverse]; exact hl
      exact List.mem_reverse.mp (List.mem_of_mem_head? (by rw [this]; rfl))
  | cons m rest ih =>
    cases hd : nameDictGet names m with
    | none => rw [choosePreferred_skip_none names m rest (Or.inl hd)]; exact ih
    | some s =>
      by_cases hs : s = []
      · rw [choosePreferred_skip_none names m rest (Or.inr (hs ▸ hd))]; exact ih
      · right
        obtain ⟨n, hfind, hu⟩ := Option.map_eq_some'.mp hd
        refine ⟨n, ?_, ?_⟩
        · exact List.mem_reverse.mp (List.mem_of_find?_eq_some hfind)
        · rw [choosePreferred_hit names m rest s hd hs, hu]

/-! ### Helper lemmas about interleaved NUL padding -/

theorem filter_ne_zero_eq_oddBytes :
    ∀ (raw : Bytes),
      (∀ i < raw.length, i % 2 = 0 → raw.getD i 1 = 0) →
      (∀ i < raw.length, i % 2 = 1 → raw.getD i 0 ≠ 0) →
      raw.filter (· ≠ 0) = oddBytes raw := by
  intro raw
  induction raw using oddBytes.induct with
  | case1 => intro _ _; rfl
  | case2 a =>
    intro heven _
    have ha : a = 0 := heven 0 (by simp) rfl
    simp [oddBytes, List.filter_cons, ha]
  | case3 a b rest ih =>
    intro heven hodd
    have ha : a = 0 := heven 0 (by simp) rfl
    have hb : b ≠ 0 := hodd 1 (by simp) rfl
    have heven2 : ∀ i < rest.length, i % 2 = 0 → rest.getD i 1 = 0 := by
      intro i hi hp
      exact heven (i + 2) (by simp; omega) (by omega)
    have hodd2 : ∀ i < rest.length, i % 2 = 1 → rest.getD i 0 ≠ 0 := by
      intro i hi hp
      exact hodd (i + 2) (by simp; omega) (by omega)
    have h1 : decide (a ≠ 0) = false := by simp [ha]
    have h2 : decide (b ≠ 0) = true := by simp [hb]
    rw [List.filter_cons, List.filter_cons, h1, h2]
    rw [if_neg (by simp), if_pos rfl]
    show b :: List.filter _ rest = b :: oddBytes rest
    exact congrArg (b :: ·) (ih heven2 hodd2)

/-! ### Helper lemmas about first-occurrence deduplication -/

theorem dedupFirst_subset : ∀ (l : List Text), ∀ x ∈ dedupFirst l, x ∈ l := by
  intro l
  induction l using dedupFirst.induct with
  | case1 => intro x hx; simp [dedupFirst] at hx
  | case2 a t ih =>
    intro x hx
    rw [dedupFirst] at hx
    rcases List.mem_cons.mp hx with h | h
    · exact h ▸ List.mem_cons_self _ _
    · exact List.mem_cons_of_mem _ (List.mem_of_mem_filter (ih x h))

theorem dedupFirst_nodup : ∀ (l : List Text), (dedupFirst l).Nodup := by
  intro l
  induction l using dedupFirst.induct with
  | case1 => simp [dedupFirst]
  | case2 a t ih =>
    rw [dedupFirst]
    refine List.nodup_cons.mpr ⟨fun h => ?_, ih⟩
    have := List.of_mem_filter (dedupFirst_subset _ a h)
    simp at this

theorem filter_notin_append_singleton (t : List Text) (acc : List Text) (a : Text) :
    t.filter (fun x => decide (x ≠ [] ∧ x ∉ acc ++ [a])) =
      (t.filter (fun x => decide (x ≠ [] ∧ x ∉ acc))).filter (fun x => decide (x ≠ a)) := by
  rw [List.filter_filter]
  refine List.filter_congr (fun x _ => ?_)
  rw [← Bool.decide_and]
  refine decide_eq_decide.mpr ?_
  constructor
  · rintro ⟨hne, hnm⟩
    exact ⟨fun e => hnm (by simp [e]), hne, fun hm => hnm (by simp [hm])⟩
  · rintro ⟨hna, hne, hnm⟩
    refine ⟨hne, fun hm => ?_⟩
    rcases List.mem_append.mp hm with h | h
    · exact hnm h
    · exact hna (by simpa using h)

theorem foldl_addFaceName (l : List Text) : ∀ acc : List Text,
    l.foldl addFaceName acc =
      acc ++ dedupFirst (l.filter (fun x => decide (x ≠ [] ∧ x ∉ acc))) := by
  induction l with
  | nil => intro acc; simp [dedupFirst]
  | cons a t ih =>
    intro acc
    rw [List.foldl_cons]
    by_cases h : a ≠ [] ∧ a ∉ acc
    · rw [show addFaceName acc a = acc ++ [a] from if_pos h, ih,
        List.filter_cons, if_pos (by simpa using h)]
      rw [dedupFirst, filter_notin_append_singleton]
      simp
    · rw [show addFaceName acc a = acc from if_neg h, ih,
        List.filter_cons, if_neg (by simpa using h)]

/-! ### Claim theorems -/

/-- C1: for every codec machinery, every `(platform_id, encoding_id)`
pair (including pairs absent from `sfnt_name_encoding`) and every raw
byte string, the per-record decode cascade returns exactly one result
(a text and an encoding tag, possibly `none`) and never raises — in
particular, even a codec machinery on which every decode attempt
raises yields the result `("", None)`. -/
theorem decode_cascade_total (codecs : Codecs) (platform_id encoding_id : Nat)
    (raw : Bytes) :
    (∃! r : Text × Option String,
        decodeRecord codecs platform_id encoding_id raw = r) ∧
    decodeRecord (fun _ _ => none) platform_id encoding_id raw = ([], none) := by
  constructor
  · exact ⟨decodeRecord codecs platform_id encoding_id raw, rfl, fun r h => h.symm⟩
  · simp [decodeRecord]

/-- C8: the encoding-table lookup is total: a pair absent from
`sfnt_name_encoding` resolves to `utf_16_be`, a present pair resolves
to its assigned codec. -/
theorem encoding_lookup_total (platform_id encoding_id : Nat) :
    (sfnt_name_encoding platform_id encoding_id = none →
      sfntEncodingLookup platform_id encoding_id = "utf_16_be") ∧
    (∀ c, sfnt_name_encoding platform_id encoding_id = some c →
      sfntEncodingLookup platform_id encoding_id = c) := by
  constructor
  · intro h; simp [sfntEncodingLookup, h]
  · intro c h; simp [sfntEncodingLookup, h]

/-- Witness for C8: platform 9 is absent from the table and resolves
to `utf_16_be`; `(1, 0)` is present and resolves to `mac_roman`. -/
theorem encoding_lookup_total_witness :
    (sfnt_name_encoding 9 0 = none ∧ sfntEncodingLookup 9 0 = "utf_16_be") ∧
    (sfnt_name_encoding 1 0 = some "mac_roman" ∧
      sfntEncodingLookup 1 0 = "mac_roman") :=
  ⟨⟨rfl, (encoding_lookup_total 9 0).1 rfl⟩,
   ⟨rfl, (encoding_lookup_total 1 0).2 "mac_roman" rfl⟩⟩

/-- C2, counterexample: the string `"\x00"` encoded under its declared
`ascii` encoding (platform 1, encoding 8) decodes and is accepted by
the cascade, but the final `strip("\x00")` removes the NUL, so the
round trip returns `""`, not `"\x00"` (and the code computes no
severity value at all). -/
theorem decode_fidelity_cex :
    asciiEncode [0] = some [0] ∧
    sfntEncodingLookup 1 8 = "ascii" ∧
    decodeName pyDecodeImpl ⟨1, 8, 1033, 4, [0]⟩ = ⟨1033, 1, 8, [], some "ascii"⟩ ∧
    ([] : Text) ≠ [0] := by decide

/-- C2 (amended): if the raw bytes decode under the declared encoding
to a string `S` containing no NUL character (in particular when they
are the uncorrupted encoding of such an `S`), the cascade accepts that
first decode: the stored text is exactly `S` and the stored encoding
is the declared one. (The code computes no severity; strings with NUL
characters are not returned verbatim — see the counterexample.) -/
theorem decode_fidelity (codecs : Codecs) (n : SfntName) (S : Text)
    (hdec : codecs (sfntEncodingLookup n.platform_id n.encoding_id) n.string =
      some S)
    (hnul : 0 ∉ S) :
    decodeName codecs n =
      ⟨n.language_id, n.platform_id, n.encoding_id, S,
        some (sfntEncodingLookup n.platform_id n.encoding_id)⟩ := by
  have hs : stripNul S = S := stripNul_of_not_mem S hnul
  simp [decodeName, decodeRecord, hdec, hs, hnul]

/-- Witness for C2 (amended) at `"Hi"` declared as `ascii`. -/
theorem decode_fidelity_witness :
    pyDecodeImpl (sfntEncodingLookup 1 8) [72, 105] = some [72, 105] ∧
    (0 : Nat) ∉ [72, 105] ∧
    decodeName pyDecodeImpl ⟨1, 8, 1033, 4, [72, 105]⟩ =
      ⟨1033, 1, 8, [72, 105], some (sfntEncodingLookup 1 8)⟩ :=
  ⟨by decide, by decide,
   decode_fidelity pyDecodeImpl ⟨1, 8, 1033, 4, [72, 105]⟩ [72, 105]
     (by decide) (by decide)⟩

/-- C3, counterexample: the null-byte repair also applies when the
declared encoding IS double-byte big-endian Unicode. Record
`(3, 1, 1033)` declares `utf_16_be`; raw `00 61 00 00 00 62` decodes
under it to `"a\x00b"`, whose embedded NUL makes the first attempt
raise, and the repair (strip all NULs, retry the same declared codec)
is applied and succeeds: the result `[0x6162]` is the declared-codec
decode of the NUL-stripped bytes, not of the raw bytes. -/
theorem null_repair_cex :
    sfntEncodingLookup 3 1 = "utf_16_be" ∧
    decodeName pyDecodeImpl ⟨3, 1, 1033, 4, [0, 97, 0, 0, 0, 98]⟩ =
      ⟨1033, 3, 1, [24930], some "utf_16_be"⟩ ∧
    pyDecodeImpl "utf_16_be" (List.filter (· ≠ 0) [0, 97, 0, 0, 0, 98]) =
      some [24930] ∧
    stripNul ((pyDecodeImpl "utf_16_be" [0, 97, 0, 0, 0, 98]).getD []) =
      [97, 0, 98] := by decide

/-- C3 (amended): the null-byte repair applies whenever the first
decode attempt fails (decode error, or an embedded NUL outside the
leading/trailing padding) and the raw string begins with a NUL byte,
regardless of the declared encoding; it removes ALL NUL bytes and
retries the declared codec. In particular, when every even-indexed
byte is zero and no odd-indexed byte is, the removed bytes are exactly
the even-indexed ones, so the result is the odd-indexed bytes decoded
with the declared codec (then NUL-stripped). -/
theorem null_repair_interleaved (codecs : Codecs) (n : SfntName) (u : Text)
    (hne : n.string ≠ [])
    (heven : ∀ i < n.string.length, i % 2 = 0 → n.string.getD i 1 = 0)
    (hodd : ∀ i < n.string.length, i % 2 = 1 → n.string.getD i 0 ≠ 0)
    (hfail : codecs (sfntEncodingLookup n.platform_id n.encoding_id) n.string =
        none ∨
      ∃ s, codecs (sfntEncodingLookup n.platform_id n.encoding_id) n.string =
        some s ∧ 0 ∈ stripNul s)
    (hrepair : codecs (sfntEncodingLookup n.platform_id n.encoding_id)
      (oddBytes n.string) = some u) :
    decodeName codecs n =
      ⟨n.language_id, n.platform_id, n.encoding_id, stripNul u,
        some (sfntEncodingLookup n.platform_id n.encoding_id)⟩ := by
  have hhead : n.string.head? = some 0 := by
    cases hstr : n.string with
    | nil => exact absurd hstr hne
    | cons a t =>
      have := heven 0 (by rw [hstr]; simp) rfl
      rw [hstr] at this
      simpa using this
  have hflt : n.string.filter (· ≠ 0) = oddBytes n.string :=
    filter_ne_zero_eq_oddBytes n.string heven hodd
  have hflt2 : List.filter (fun x => !decide (x = 0)) n.string =
      oddBytes n.string := by simpa using hflt
  rcases hfail with hf | ⟨s, hf, hmem⟩
  · simp [decodeName, decodeRecord, hf, hhead, hflt2, hrepair]
  · simp [decodeName, decodeRecord, hf, hmem, hhead, hflt2, hrepair]

/-- Witness for C3 (amended): raw `00 61 00 62` declared `ascii`
(platform 1, encoding 8) — the odd-indexed bytes `61 62` decode to
`"ab"`. -/
theorem null_repair_interleaved_witness :
    decodeName pyDecodeImpl ⟨1, 8, 1033, 4, [0, 97, 0, 98]⟩ =
      ⟨1033, 1, 8, stripNul [97, 98],
        some (sfntEncodingLookup 1 8)⟩ :=
  null_repair_interleaved pyDecodeImpl ⟨1, 8, 1033, 4, [0, 97, 0, 98]⟩ [97, 98]
    (by decide) (by decide) (by decide)
    (Or.inr ⟨[0, 97, 0, 98], by decide, by decide⟩) (by decide)

/-- C4, counterexample: the last cascade steps are STRICT `utf_16_be`
and STRICT `ascii` decodes, not a lossy always-succeeding decode: on
raw `FF` declared `(3, 1)` (= `utf_16_be`) every step fails and the
cascade ends with no decode performed — empty text and encoding
`None`. -/
theorem last_resort_cex :
    decodeName pyDecodeImpl ⟨3, 1, 1033, 4, [255]⟩ =
      ⟨1033, 3, 1, [], none⟩ := by decide

/-- C4 (amended): the final cascade steps are a strict `utf_16_be`
decode followed by a strict `ascii` decode; when every attempt fails
the cascade returns the empty text with no encoding (it still never
raises). -/
theorem cascade_exhaustion (codecs : Codecs) (platform_id encoding_id : Nat)
    (raw : Bytes)
    (h1 : codecs (sfntEncodingLookup platform_id encoding_id) raw = none ∨
      ∃ s, codecs (sfntEncodingLookup platform_id encoding_id) raw = some s ∧
        0 ∈ stripNul s)
    (h2 : raw.head? = some 0 →
      codecs (sfntEncodingLookup platform_id encoding_id)
        (raw.filter (· ≠ 0)) = none)
    (h3 : codecs "utf_16_be" raw = none)
    (h4 : codecs "ascii" raw = none) :
    decodeRecord codecs platform_id encoding_id raw = ([], none) := by
  have hif : (if raw.head? = some 0
      then codecs (sfntEncodingLookup platform_id encoding_id)
        (raw.filter (· ≠ 0))
      else none) = none := by
    by_cases hh : raw.head? = some 0
    · rw [if_pos hh]; exact h2 hh
    · rw [if_neg hh]
  rcases h1 with hf | ⟨s, hf, hmem⟩
  · simp only [decodeRecord, hf]
    rw [hif]
    simp [h3, h4]
  · simp only [decodeRecord, hf]
    rw [if_pos hmem, hif]
    simp [h3, h4]

/-- Witness for C4 (amended): raw `D8 00` (a lone high surrogate)
declared `(3, 1)`: the declared `utf_16_be` decode fails, the raw
string does not start with NUL, the `utf_16_be` retry fails, and the
`ascii` decode fails. -/
theorem cascade_exhaustion_witness :
    decodeRecord pyDecodeImpl 3 1 [216, 0] = ([], none) :=
  cascade_exhaustion pyDecodeImpl 3 1 [216, 0]
    (Or.inl (by decide)) (by decide) (by decide) (by decide)

/-- C5, counterexample: a priority entry whose language IS present can
be skipped. Records: language 1033 decoding to `"Foo"` (first in the
input), language 1028 decoding to `""` (raw is empty). With priority
`[(1028,3,1), (1033,3,1)]` the selector returns `"Foo"` although a
record for language 1028 is present — a present-but-empty entry does
not win. -/
theorem priority_selection_cex :
    nameDictGet (decodedNames pyDecodeImpl
        [⟨3, 1, 1033, 4, [0, 70, 0, 111, 0, 111]⟩, ⟨3, 1, 1028, 4, []⟩])
      (1028, 3, 1) = some [] ∧
    guess_sfnt_name pyDecodeImpl
        [⟨3, 1, 1033, 4, [0, 70, 0, 111, 0, 111]⟩, ⟨3, 1, 1028, 4, []⟩]
        (some [(1028, 3, 1), (1033, 3, 1)]) = Sum.inl [70, 111, 111] := by
  decide

/-- C5 (amended): the first priority entry whose full
`(language_id, platform_id, encoding_id)` triple is present with a
NON-EMPTY decoded string wins, regardless of the order of the records
in the input sequence; entries that are absent, or present but
decoding to the empty string, are skipped. -/
theorem priority_selection (codecs : Codecs) (records : List SfntName)
    (pre : List (Nat × Nat × Nat)) (m : Nat × Nat × Nat)
    (post : List (Nat × Nat × Nat)) (s : Text)
    (hrec : records.filter (fun n => n.name_id = 4) ≠ [])
    (hpre : ∀ x ∈ pre, nameDictGet (decodedNames codecs records) x = none ∨
      nameDictGet (decodedNames codecs records) x = some [])
    (hm : nameDictGet (decodedNames codecs records) m = some s)
    (hs : s ≠ []) :
    guess_sfnt_name codecs records (some (pre ++ m :: post)) = Sum.inl s := by
  unfold guess_sfnt_name
  rw [if_neg hrec]
  exact congrArg Sum.inl
    (choosePreferred_append (decodedNames codecs records) s pre m post hpre hm hs)

/-- Witness for C5 (amended): records for language 1033 (`"Foo"`,
first in the input) and language 1028 (`"Bar"`); with the priority
list `[(2052,3,3), (1028,3,1), (1033,3,1)]` the 1028 record wins even
though the 1033 record comes first in the input sequence. -/
theorem priority_selection_witness :
    guess_sfnt_name pyDecodeImpl
        [⟨3, 1, 1033, 4, [0, 70, 0, 111, 0, 111]⟩,
         ⟨3, 1, 1028, 4, [0, 66, 0, 97, 0, 114]⟩]
        (some [(2052, 3, 3), (1028, 3, 1), (1033, 3, 1)]) =
      Sum.inl [66, 97, 114] :=
  priority_selection pyDecodeImpl
    [⟨3, 1, 1033, 4, [0, 70, 0, 111, 0, 111]⟩,
     ⟨3, 1, 1028, 4, [0, 66, 0, 97, 0, 114]⟩]
    [(2052, 3, 3)] (1028, 3, 1) [(1033, 3, 1)] [66, 97, 114]
    (by decide) (by decide) (by decide) (by decide)

/-- C6, counterexample: the selected display name CAN contain an
embedded NUL. Record `(3, 1, 1033)` with raw `61 00 62`: the declared
`utf_16_be` decode fails (odd length), the `ascii` fallback (which
performs no embedded-NUL check) yields `"a\x00b"`, and the default
priority selects it — the output contains U+0000. -/
theorem selection_nul_free_cex :
    guess_sfnt_name pyDecodeImpl [⟨3, 1, 1033, 4, [97, 0, 98]⟩]
        (some sfnt_name_priority) = Sum.inl [97, 0, 98] ∧
    (0 : Nat) ∈ [97, 0, 98] := by decide

/-- C6 (amended): the selected display name never has a LEADING or
TRAILING NUL (every stored string passes `strip("\x00")`, and the
selector only returns stored strings or `""`); embedded NULs can
survive through the `ascii` fallback — see the counterexample. -/
theorem selection_no_edge_nul (codecs : Codecs) (records : List SfntName)
    (prio : List (Nat × Nat × Nat)) (s : Text)
    (h : guess_sfnt_name codecs records (some prio) = Sum.inl s) :
    stripNul s = s := by
  unfold guess_sfnt_name at h
  by_cases hrec : records.filter (fun n => n.name_id = 4) = []
  · rw [if_pos hrec] at h
    have : s = [] := (Sum.inl.injEq _ _).mp h.symm
    rw [this]; rfl
  · rw [if_neg hrec] at h
    have hcs : choosePreferred (decodedNames codecs records) prio = s :=
      (Sum.inl.injEq _ _).mp h
    rcases choosePreferred_cases (decodedNames codecs records) prio with
      h0 | ⟨n, hn, he⟩
    · rw [← hcs, h0]; rfl
    · obtain ⟨x, hx, hdx⟩ := List.mem_map.mp hn
      rw [← hcs, he, ← hdx]
      show stripNul (stripNul _) = stripNul _
      exact stripNul_idem _
/-- Witness for C6 (amended): a single UTF-16BE record decoding to
`"Hi"`; the selected name `[72, 105]` is unchanged by `stripNul`. -/
theorem selection_no_edge_nul_witness :
    guess_sfnt_name pyDecodeImpl [⟨3, 1, 1033, 4, [0, 72, 0, 105]⟩]
        (some sfnt_name_priority) = Sum.inl [72, 105] ∧
    stripNul [72, 105] = [72, 105] :=
  ⟨by decide,
   selection_no_edge_nul pyDecodeImpl [⟨3, 1, 1033, 4, [0, 72, 0, 105]⟩]
     sfnt_name_priority [72, 105] (by decide)⟩

/-- The only encoding tags the cascade can ever report: the declared
table encoding, `utf_16_be`, `ascii`, or `none`. -/
theorem decodeRecord_encoding_cases (codecs : Codecs)
    (platform_id encoding_id : Nat) (raw : Bytes) :
    (decodeRecord codecs platform_id encoding_id raw).2 =
        some (sfntEncodingLookup platform_id encoding_id) ∨
      (decodeRecord codecs platform_id encoding_id raw).2 = some "utf_16_be" ∨
      (decodeRecord codecs platform_id encoding_id raw).2 = some "ascii" ∨
      (decodeRecord codecs platform_id encoding_id raw).2 = none := by
  simp only [decodeRecord]
  cases codecs (sfntEncodingLookup platform_id encoding_id) raw with
  | some s =>
    dsimp only
    by_cases hm : 0 ∈ stripNul s
    · rw [if_pos hm]
      cases (if raw.head? = some 0
          then codecs (sfntEncodingLookup platform_id encoding_id)
            (raw.filter (· ≠ 0))
          else none) with
      | some s2 => left; rfl
      | none =>
        dsimp only
        cases codecs "utf_16_be" raw with
        | some s2 => right; left; rfl
        | none =>
          dsimp only
          cases codecs "ascii" raw with
          | some s2 => right; right; left; rfl
          | none => right; right; right; rfl
    · rw [if_neg hm]; left; rfl
  | none =>
    dsimp only
    cases (if raw.head? = some 0
        then codecs (sfntEncodingLookup platform_id encoding_id)
          (raw.filter (· ≠ 0))
        else none) with
    | some s2 => left; rfl
    | none =>
      dsimp only
      cases codecs "utf_16_be" raw with
      | some s2 => right; left; rfl
      | none =>
        dsimp only
        cases codecs "ascii" raw with
        | some s2 => right; right; left; rfl
        | none => right; right; right; rfl

/-- C7, counterexample: raw `A4 A4 E5 87` declared Mac Roman
(platform 1, encoding 0) has 4 bytes above the 7-bit ASCII range, yet
the cascade simply accepts the Mac Roman decode (the stored text is
the Mac Roman decoding and the stored tag is `mac_roman`); no
traditional-Chinese or Japanese Mac retry exists in the code. -/
theorem mac_roman_over_range_cex :
    3 < (List.filter (fun b => decide (127 < b)) [164, 164, 229, 135]).length ∧
    macRomanDecode [164, 164, 229, 135] = some [167, 167, 194, 225] ∧
    decodeName pyDecodeImpl ⟨1, 0, 1033, 4, [164, 164, 229, 135]⟩ =
      ⟨1033, 1, 0, [167, 167, 194, 225], some "mac_roman"⟩ := by decide

/-- C7 (amended): the code has no Mac-Roman over-range heuristic.
Whatever the codec machinery does, a record declared Mac Roman
(platform 1, encoding 0) can only ever be tagged `mac_roman`,
`utf_16_be`, `ascii`, or `None`: the cascade never tries a
traditional-Chinese or Japanese Mac encoding. -/
theorem mac_roman_no_cjk_retry (codecs : Codecs) (language_id name_id : Nat)
    (raw : Bytes) :
    (decodeName codecs ⟨1, 0, language_id, name_id, raw⟩).encoding =
        some "mac_roman" ∨
      (decodeName codecs ⟨1, 0, language_id, name_id, raw⟩).encoding =
        some "utf_16_be" ∨
      (decodeName codecs ⟨1, 0, language_id, name_id, raw⟩).encoding =
        some "ascii" ∨
      (decodeName codecs ⟨1, 0, language_id, name_id, raw⟩).encoding = none :=
  decodeRecord_encoding_cases codecs 1 0 raw

/-- C9: `guess_font_name` returns the collected per-face names joined
with the separator when one is given and the same name sequence when
the separator is `None`/`False`; concretely, a two-face collection
with names `"Foo"` and `"Bar"` under the default separator `" & "`
yields `"Foo & Bar"`. -/
theorem guess_font_name_join (codecs : Codecs) (faces : List Face) (sep : Text) :
    (∃ names, guess_font_name codecs faces none = Sum.inr names ∧
        guess_font_name codecs faces (some sep) =
          Sum.inl (List.intercalate sep names)) ∧
    guess_font_name pyDecodeImpl
        [⟨[], [70, 111, 111], []⟩, ⟨[], [66, 97, 114], []⟩]
        (some [32, 38, 32]) =
      Sum.inl [70, 111, 111, 32, 38, 32, 66, 97, 114] :=
  ⟨⟨collectFaceNames codecs faces, rfl, rfl⟩, by decide⟩

/-- C10: the per-face name list built by `guess_font_name` is exactly
the first-occurrence deduplication of the non-empty face names: no
duplicates, no empty strings, first occurrence order preserved. -/
theorem face_names_dedup (codecs : Codecs) (faces : List Face) :
    collectFaceNames codecs faces =
        dedupFirst ((faces.map (faceName codecs)).filter
          (fun x => decide (x ≠ []))) ∧
      (collectFaceNames codecs faces).Nodup ∧
      [] ∉ collectFaceNames codecs faces := by
  have hfold : collectFaceNames codecs faces =
      dedupFirst ((faces.map (faceName codecs)).filter
        (fun x => decide (x ≠ []))) := by
    unfold collectFaceNames
    rw [← List.foldl_map (faceName codecs) addFaceName faces [],
      foldl_addFaceName, List.nil_append]
    congr 1
    refine List.filter_congr (fun x _ => ?_)
    refine decide_eq_decide.mpr ?_
    simp
  refine ⟨hfold, ?_, ?_⟩
  · rw [hfold]; exact dedupFirst_nodup _
  · rw [hfold]
    intro hmem
    have := List.of_mem_filter (dedupFirst_subset _ [] hmem)
    simp at this
